import Mathlib

/-!
Verification of the resource-usage timeline computations of the
scheduler-job-export repository.

Two scripts carry the timeline core:

* `analyze_true_utilization.py` — loads a job table, filters it
  (`load_job_data`), and computes a running-total time series at every job
  start/end event (`calculate_utilization_timeseries`).
* `analyze_concurrent_load.py` — filters jobs by run time, samples the set of
  running jobs at fixed ticks from a range start to a range end, and derives a
  peak-to-average ratio from the sampled series.

The embedding below models timestamps as integers (pandas timestamps are
instants with exact ordering) and numeric amounts as rationals (the scripts use
floats; all the analysed behaviour is exact arithmetic, comparison and
clamping, which ℚ models faithfully, except where float division by zero
matters, which is modelled explicitly by `PyFloat`).

`sort_values('timestamp')` is modelled by a stable insertion sort on the
timestamp key (`List.insertionSort`).  numpy's default sort is unstable in
general but degenerates to a stable insertion sort on the small arrays used in
the concrete instances below; general theorems use only that the result is a
timestamp-sorted permutation of its input.
-/

namespace TrueUtilization

/-- A raw CSV row after column coercion, as seen by `load_job_data`
(`analyze_true_utilization.py` lines 21-50): `pd.to_datetime(..,
errors='coerce')` yields a missing value (`none`) for unparseable timestamps;
`pd.to_numeric(..).fillna(1)` / `.fillna(0)` are modelled by `Option` with the
corresponding defaults applied in `load_job_data`.  The `nodes` column is
coerced by the script but never used by the time-series computation, so it is
omitted here. -/
structure RawJob where
  start_time : Option Int
  end_time : Option Int
  cpus : Option ℚ
  mem_req : Option ℚ
deriving DecidableEq

/-- A job surviving validation. -/
structure Job where
  start_time : Int
  end_time : Int
  cpus : ℚ
  mem_req : ℚ
deriving DecidableEq

/-- The per-row test applied by `load_job_data` (lines 33-46): apply the
`fillna` defaults (cpus → 1, mem_req → 0), keep the row only when both
timestamps are present (`df['start_time'].notna() & df['end_time'].notna()`,
line 43) and `start_time < end_time` (line 46). -/
def validateRow (r : RawJob) : Option Job :=
  match r.start_time, r.end_time with
  | some s, some e =>
      if s < e then some ⟨s, e, r.cpus.getD 1, r.mem_req.getD 0⟩ else none
  | _, _ => none

/-- `load_job_data` (lines 21-50): rows failing the validation test are
dropped from the frame; the function has no error path for them. -/
def load_job_data (rows : List RawJob) : List Job :=
  rows.filterMap validateRow

inductive EventType where
  | startEv
  | endEv
deriving DecidableEq

/-- One row of the `events` list built in `calculate_utilization_timeseries`
(lines 100-120).  The script also copies the `nodes` column into each event
but never reads it back (the node running total is explicitly not computed),
so it is omitted. -/
structure Event where
  timestamp : Int
  event_type : EventType
  cpus : ℚ
  memory_mb : ℚ
deriving DecidableEq

def startEvent (j : Job) : Event :=
  ⟨j.start_time, .startEv, j.cpus, j.mem_req⟩

def endEvent (j : Job) : Event :=
  ⟨j.end_time, .endEv, j.cpus, j.mem_req⟩

/-- Lines 103-120: for each job, in frame order, append a start event and an
end event. -/
def makeEvents (df : List Job) : List Event :=
  df.flatMap fun j => [startEvent j, endEvent j]

/-- The sort key used by `events_df.sort_values('timestamp')` (line 124):
events are compared by timestamp only; no tie-break between event types. -/
def tsLe (a b : Event) : Prop := a.timestamp ≤ b.timestamp

instance : DecidableRel tsLe := fun a b =>
  inferInstanceAs (Decidable (a.timestamp ≤ b.timestamp))

instance : IsTotal Event tsLe := ⟨fun a b => Int.le_total a.timestamp b.timestamp⟩

instance : IsTrans Event tsLe := ⟨fun _ _ _ h₁ h₂ => le_trans h₁ h₂⟩

/-- `events_df.sort_values('timestamp')` (line 124), modelled as a stable sort
on the timestamp key. -/
def sortEvents (events : List Event) : List Event :=
  List.insertionSort tsLe events

/-- One row of the output time series (lines 160-167).  The script also emits
`cpu_utilization_pct` / `memory_utilization_pct`, which are the two allocation
fields divided by fixed capacity totals from the optional cluster config; they
add no state to the sweep and no claim concerns them, so they are omitted. -/
structure TimelinePoint where
  timestamp : Int
  event_type : EventType
  cpus_allocated : ℚ
  memory_allocated_mb : ℚ
deriving DecidableEq

/-- The event loop of `calculate_utilization_timeseries` (lines 131-167): for
each event in sorted order, add the event's amounts on a start and subtract
them on an end, clamp both running totals at zero
(`current_cpus = max(0, current_cpus)`, line 146-147), and emit one point per
event carrying the post-event totals. -/
def sweep (current_cpus current_memory_mb : ℚ) : List Event → List TimelinePoint
  | [] => []
  | e :: rest =>
    let c0 : ℚ :=
      match e.event_type with
      | .startEv => current_cpus + e.cpus
      | .endEv => current_cpus - e.cpus
    let m0 : ℚ :=
      match e.event_type with
      | .startEv => current_memory_mb + e.memory_mb
      | .endEv => current_memory_mb - e.memory_mb
    let c := max 0 c0
    let m := max 0 m0
    { timestamp := e.timestamp, event_type := e.event_type,
      cpus_allocated := c, memory_allocated_mb := m } :: sweep c m rest

/-- Errors raised by the pandas layer. -/
inductive PandasError where
  | keyError (column : String)
deriving DecidableEq

/-- `calculate_utilization_timeseries` (lines 96-177).  When the job frame is
empty the events list is empty and `pd.DataFrame([])` has no columns at all,
so `events_df.sort_values('timestamp')` (line 124) raises
`KeyError: 'timestamp'`; otherwise the sorted events are swept with both
running totals starting at zero. -/
def calculate_utilization_timeseries (df : List Job) :
    Except PandasError (List TimelinePoint) :=
  let events := makeEvents df
  if events.isEmpty then .error (.keyError "timestamp")
  else .ok (sweep 0 0 (sortEvents events))

/-- The cpus amount carried by an event. -/
def cpusOf (e : Event) : ℚ := e.cpus

/-- The memory amount carried by an event. -/
def memOf (e : Event) : ℚ := e.memory_mb

/-- The signed contribution of an event to a running total: added on a start,
subtracted on an end, for an amount projection `π` (either `cpusOf` or
`memOf`). -/
def signedAmt (π : Event → ℚ) (e : Event) : ℚ :=
  match e.event_type with
  | .startEv => π e
  | .endEv => -π e

/-- The sum of signed contributions over an event list. -/
def sweepSum (π : Event → ℚ) (es : List Event) : ℚ :=
  (es.map (signedAmt π)).sum

/-- One update of a running total in the event loop: apply the signed
contribution, then clamp at zero (lines 137-147). -/
def stepAmt (π : Event → ℚ) (c : ℚ) (e : Event) : ℚ :=
  max 0 (c + signedAmt π e)

/-- Strict comparison of events by timestamp. -/
def tsLt (a b : Event) : Prop := a.timestamp < b.timestamp

instance : IsAntisymm Event tsLt :=
  ⟨fun _ _ h₁ h₂ => absurd (lt_trans h₁ h₂) (lt_irrefl _)⟩

end TrueUtilization

namespace ConcurrentLoad

/-- One job row as used by `analyze_concurrent_load.py` after timestamp
parsing (lines 38-41): a start time, an end time (both instants) and the
requested CPU count `cpus_req`.  The `nodelist`-derived `node_type` column
only drives the compute/GPU sub-series, which repeat the same sum over a
filtered frame; no claim concerns them, so it is omitted. -/
structure CJob where
  start_time : Int
  end_time : Int
  cpus_req : ℚ
deriving DecidableEq

/-- `run_time_seconds` (line 41). -/
def run_time_seconds (j : CJob) : Int := j.end_time - j.start_time

/-- The validity filter of `analyze_concurrent_load` (line 44):
`df = df[(df['run_time_seconds'] > 0) & (df['run_time_seconds'] < 360000)]`.
Rows outside the window are dropped from the frame; no error is raised. -/
def filter_valid_jobs (df : List CJob) : List CJob :=
  df.filter fun j =>
    decide (0 < run_time_seconds j ∧ run_time_seconds j < 360000)

/-- The tick generator of the sampling loop (lines 71-90):
`current_time = range_start; while current_time <= range_end:
current_time += sample_interval`.  In the script `sample_interval` is fixed to
one hour and the range is `[min start_time, max end_time]`; they are
parameters here so the loop can be stated for any call.  For
`sample_interval <= 0` the Python loop never terminates; this model returns
`[]` there and no theorem relies on that branch. -/
def tickTimes (sample_interval range_end : Int) (current_time : Int) : List Int :=
  if _h : 0 < sample_interval ∧ current_time ≤ range_end then
    current_time :: tickTimes sample_interval range_end (current_time + sample_interval)
  else []
termination_by (range_end + 1 - current_time).toNat
decreasing_by omega

/-- Line 77: `running_jobs = df[(df['start_time'] <= current_time) &
(df['end_time'] > current_time)]`. -/
def running_jobs (df : List CJob) (t : Int) : List CJob :=
  df.filter fun j => decide (j.start_time ≤ t ∧ t < j.end_time)

/-- One sampled point (lines 79-87): the tick time, the summed `cpus_req`
over running jobs, and the number of running jobs. -/
structure TickSample where
  time : Int
  cpus : ℚ
  jobs : Nat
deriving DecidableEq

def sampleAt (df : List CJob) (t : Int) : TickSample :=
  { time := t
    cpus := ((running_jobs df t).map (fun j => j.cpus_req)).sum
    jobs := (running_jobs df t).length }

/-- The fixed-tick sampling computation (lines 70-95), one sample per loop
iteration. -/
def compute_fixed_tick (df : List CJob) (sample_interval range_start range_end : Int) :
    List TickSample :=
  (tickTimes sample_interval range_end range_start).map (sampleAt df)

/-- An IEEE-754 float value as far as the analysed expressions need:
a finite value (exact, since the analysed operations on finite inputs are
sums, max and one division), positive/negative infinity, or NaN. -/
inductive PyFloat where
  | val (q : ℚ)
  | posInf
  | negInf
  | nan
deriving DecidableEq

/-- IEEE float division for a finite numerator and denominator: division by
zero yields a signed infinity for a nonzero numerator and NaN for 0/0. -/
def pyDivVals (x y : ℚ) : PyFloat :=
  if y = 0 then
    if 0 < x then .posInf else if x < 0 then .negInf else .nan
  else .val (x / y)

/-- Float division on the values reaching line 134: both operands are either
finite or NaN (from `max`/`mean` of an empty series); NaN propagates.  Inputs
with an infinite operand cannot reach this division and are mapped to NaN
here, unused by any theorem. -/
def pyDiv (a b : PyFloat) : PyFloat :=
  match a, b with
  | .val x, .val y => pyDivVals x y
  | _, _ => .nan

/-- `concurrent_series.max()`: NaN on an empty series, else the maximum. -/
def seriesMax : List ℚ → PyFloat
  | [] => .nan
  | x :: xs => .val (xs.foldl max x)

/-- The maximum of a nonempty series as a rational (0 for the empty series,
never used there). -/
def seriesMaxVal : List ℚ → ℚ
  | [] => 0
  | x :: xs => xs.foldl max x

/-- `concurrent_series.mean()`: NaN on an empty series, else sum/length. -/
def seriesMean (l : List ℚ) : PyFloat :=
  if l.isEmpty then .nan else .val (l.sum / l.length)

/-- Line 134: `peak_to_avg = concurrent_series.max() / concurrent_series.mean()`.
An unconditional float division; the script has no error path around it. -/
def peak_to_avg (series : List ℚ) : PyFloat :=
  pyDiv (seriesMax series) (seriesMean series)

end ConcurrentLoad

/-! ## Helper lemmas about the event sweep -/

namespace TrueUtilization

theorem signedAmt_startEvent (π : Event → ℚ) (j : Job) :
    signedAmt π (startEvent j) = π (startEvent j) := rfl

theorem signedAmt_endEvent (π : Event → ℚ) (j : Job) :
    signedAmt π (endEvent j) = -π (endEvent j) := rfl

theorem sweepSum_nil (π : Event → ℚ) : sweepSum π [] = 0 := rfl

theorem sweepSum_cons (π : Event → ℚ) (e : Event) (es : List Event) :
    sweepSum π (e :: es) = signedAmt π e + sweepSum π es := by
  simp [sweepSum]

theorem sweepSum_append (π : Event → ℚ) (a b : List Event) :
    sweepSum π (a ++ b) = sweepSum π a + sweepSum π b := by
  simp [sweepSum]

theorem sweepSum_perm (π : Event → ℚ) {es₁ es₂ : List Event}
    (h : List.Perm es₁ es₂) : sweepSum π es₁ = sweepSum π es₂ :=
  List.Perm.sum_eq (h.map _)

theorem makeEvents_cons (j : Job) (rest : List Job) :
    makeEvents (j :: rest) = startEvent j :: endEvent j :: makeEvents rest := rfl

theorem makeEvents_length (df : List Job) :
    (makeEvents df).length = 2 * df.length := by
  induction df with
  | nil => rfl
  | cons j rest ih => simp [makeEvents_cons, ih]; ring

theorem sweepSum_makeEvents (π : Event → ℚ) (df : List Job)
    (hpair : ∀ j ∈ df, π (endEvent j) = π (startEvent j)) :
    sweepSum π (makeEvents df) = 0 := by
  induction df with
  | nil => rfl
  | cons j rest ih =>
    rw [makeEvents_cons, sweepSum_cons, sweepSum_cons, signedAmt_startEvent,
      signedAmt_endEvent, hpair j (List.mem_cons_self _ _),
      ih fun i hi => hpair i (List.mem_cons_of_mem _ hi)]
    ring

theorem sweep_cons (c m : ℚ) (e : Event) (rest : List Event) :
    sweep c m (e :: rest) =
      { timestamp := e.timestamp, event_type := e.event_type,
        cpus_allocated := stepAmt cpusOf c e,
        memory_allocated_mb := stepAmt memOf m e } ::
        sweep (stepAmt cpusOf c e) (stepAmt memOf m e) rest := by
  cases h : e.event_type <;>
    simp [sweep, stepAmt, signedAmt, cpusOf, memOf, h, sub_eq_add_neg]

theorem sweep_length (es : List Event) :
    ∀ c m : ℚ, (sweep c m es).length = es.length := by
  induction es with
  | nil => intro c m; rfl
  | cons e rest ih => intro c m; rw [sweep_cons]; simp [ih]

theorem sweep_map_timestamp (es : List Event) :
    ∀ c m : ℚ, (sweep c m es).map (fun p => p.timestamp) =
      es.map (fun e => e.timestamp) := by
  induction es with
  | nil => intro c m; rfl
  | cons e rest ih => intro c m; rw [sweep_cons]; simp [ih]

theorem sweep_mem_nonneg (es : List Event) :
    ∀ c m : ℚ, ∀ p ∈ sweep c m es,
      0 ≤ p.cpus_allocated ∧ 0 ≤ p.memory_allocated_mb := by
  induction es with
  | nil => intro c m p hp; simp [sweep] at hp
  | cons e rest ih =>
    intro c m p hp
    rw [sweep_cons] at hp
    rcases List.mem_cons.mp hp with h | h
    · subst h; exact ⟨le_max_left _ _, le_max_left _ _⟩
    · exact ih _ _ _ h

theorem suffix_append_cases {α : Type _} {s a b : List α} (h : s <:+ a ++ b) :
    s <:+ b ∨ ∃ a₁, a₁ <:+ a ∧ s = a₁ ++ b := by
  obtain ⟨p, hp⟩ := h
  rcases List.append_eq_append_iff.mp hp with ⟨a₁, ha, hs⟩ | ⟨c₁, hp₁, hb⟩
  · exact .inr ⟨a₁, ⟨p, ha.symm⟩, hs⟩
  · exact .inl ⟨c₁, hb.symm⟩

theorem append_suffix_of_suffix {α : Type _} {a b w : List α} (h : a <:+ b) :
    a ++ w <:+ b ++ w := by
  obtain ⟨p, hp⟩ := h
  exact ⟨p, by rw [← List.append_assoc, hp]⟩

/-- Key structural fact behind conservation: for a batch of valid jobs, in any
timestamp-sorted arrangement of its start/end events, every suffix has
non-positive signed sum (each start event appearing in a suffix is matched by
its own end event later in that suffix, because the end's strictly larger
timestamp forces it to the right of the start). -/
theorem suffix_sweepSum_nonpos (π : Event → ℚ) :
    ∀ (df : List Job) (es : List Event),
      List.Perm es (makeEvents df) →
      List.Pairwise tsLe es →
      (∀ j ∈ df, j.start_time < j.end_time) →
      (∀ j ∈ df, 0 ≤ π (startEvent j)) →
      (∀ j ∈ df, π (endEvent j) = π (startEvent j)) →
      ∀ s, s <:+ es → sweepSum π s ≤ 0 := by
  intro df
  induction df with
  | nil =>
    intro es hperm _ _ _ _ s hs
    have hes : es = [] := List.Perm.eq_nil hperm
    subst hes
    have hse : s = [] := List.suffix_nil.mp hs
    subst hse
    simp [sweepSum_nil]
  | cons j rest ih =>
    intro es hperm hsort hval hnn hpair s hs
    rw [makeEvents_cons] at hperm
    have hsmem : startEvent j ∈ es := hperm.mem_iff.mpr (List.mem_cons_self _ _)
    obtain ⟨u, t, rfl⟩ := List.append_of_mem hsmem
    have hperm₂ : List.Perm (u ++ t) (endEvent j :: makeEvents rest) :=
      (List.perm_middle.symm.trans hperm).cons_inv
    have hjlt : j.start_time < j.end_time := hval j (List.mem_cons_self _ _)
    have hent : endEvent j ∈ t := by
      rcases List.mem_append.mp (hperm₂.mem_iff.mpr (List.mem_cons_self _ _)) with hu | ht
      · exfalso
        have hle : tsLe (endEvent j) (startEvent j) :=
          (List.pairwise_append.mp hsort).2.2 _ hu _ (List.mem_cons_self _ _)
        exact absurd hle (by simp [tsLe, startEvent, endEvent]; omega)
      · exact ht
    obtain ⟨v, w, rfl⟩ := List.append_of_mem hent
    have hperm₃ : List.Perm (u ++ (v ++ w)) (makeEvents rest) := by
      have h₁ : List.Perm (endEvent j :: (u ++ (v ++ w)))
          (endEvent j :: makeEvents rest) := by
        refine List.Perm.trans ?_ hperm₂
        have h₂ := (@List.perm_middle Event (endEvent j) (u ++ v) w).symm
        simpa [List.append_assoc] using h₂
      exact h₁.cons_inv
    have hsub : (u ++ (v ++ w)).Sublist
        (u ++ (startEvent j :: (v ++ endEvent j :: w))) := by
      refine List.Sublist.append_left ?_ u
      refine List.Sublist.cons _ ?_
      exact List.Sublist.append_left (List.Sublist.cons _ (List.Sublist.refl w)) v
    have hsort₂ : List.Pairwise tsLe (u ++ (v ++ w)) :=
      List.Pairwise.sublist hsub hsort
    have ihs : ∀ s₁, s₁ <:+ u ++ (v ++ w) → sweepSum π s₁ ≤ 0 :=
      ih _ hperm₃ hsort₂ (fun i hi => hval i (List.mem_cons_of_mem _ hi))
        (fun i hi => hnn i (List.mem_cons_of_mem _ hi))
        (fun i hi => hpair i (List.mem_cons_of_mem _ hi))
    have hnnj : 0 ≤ π (startEvent j) := hnn j (List.mem_cons_self _ _)
    have hpairj : π (endEvent j) = π (startEvent j) := hpair j (List.mem_cons_self _ _)
    rcases suffix_append_cases hs with hs₁ | ⟨u₁, hu₁, rfl⟩
    · rcases List.suffix_cons_iff.mp hs₁ with rfl | hs₂
      · have heq : sweepSum π (startEvent j :: (v ++ endEvent j :: w)) =
            sweepSum π (v ++ w) := by
          rw [sweepSum_cons, signedAmt_startEvent, sweepSum_append, sweepSum_cons,
            signedAmt_endEvent, sweepSum_append, hpairj]
          ring
        rw [heq]
        exact ihs _ (List.suffix_append _ _)
      · rcases suffix_append_cases hs₂ with hs₃ | ⟨v₁, hv₁, rfl⟩
        · rcases List.suffix_cons_iff.mp hs₃ with rfl | hs₄
          · have hw : sweepSum π w ≤ 0 :=
              ihs w ((List.suffix_append v w).trans (List.suffix_append _ _))
            rw [sweepSum_cons, signedAmt_endEvent, hpairj]
            linarith
          · exact ihs s (hs₄.trans ((List.suffix_append v w).trans
              (List.suffix_append _ _)))
        · have h₁ : sweepSum π (v₁ ++ w) ≤ 0 :=
            ihs _ ((append_suffix_of_suffix hv₁).trans (List.suffix_append _ _))
          rw [sweepSum_append, sweepSum_cons, signedAmt_endEvent, hpairj]
          rw [sweepSum_append] at h₁
          linarith
    · have h₁ : sweepSum π (u₁ ++ (v ++ w)) ≤ 0 :=
        ihs _ (append_suffix_of_suffix hu₁)
      rw [sweepSum_append, sweepSum_cons, signedAmt_startEvent, sweepSum_append,
        sweepSum_cons, signedAmt_endEvent, hpairj]
      rw [sweepSum_append, sweepSum_append] at h₁
      linarith

/-- The clamped running total equals the plain running total when every
prefix keeps the plain total non-negative (the clamp never fires). -/
theorem foldl_stepAmt_eq (π : Event → ℚ) :
    ∀ (es : List Event) (c : ℚ),
      (∀ p s, es = p ++ s → 0 ≤ c + sweepSum π p) →
      es.foldl (stepAmt π) c = c + sweepSum π es := by
  intro es
  induction es with
  | nil => intro c _; simp [sweepSum_nil]
  | cons e rest ih =>
    intro c h
    have h₁ : 0 ≤ c + signedAmt π e := by
      have h₂ := h [e] rest rfl
      simpa [sweepSum_cons, sweepSum_nil] using h₂
    rw [List.foldl_cons, show stepAmt π c e = c + signedAmt π e from max_eq_right h₁,
      ih _ fun p s hps => by
        have h₃ := h (e :: p) s (by rw [List.cons_append, hps])
        rw [sweepSum_cons] at h₃
        linarith,
      sweepSum_cons]
    ring

/-- Conservation core: folding the clamped update over a timestamp-sorted
arrangement of the events of a valid batch, starting from zero, ends at
zero. -/
theorem foldl_stepAmt_sorted_zero (π : Event → ℚ) (df : List Job)
    (es : List Event)
    (hperm : List.Perm es (makeEvents df))
    (hsort : List.Pairwise tsLe es)
    (hval : ∀ j ∈ df, j.start_time < j.end_time)
    (hnn : ∀ j ∈ df, 0 ≤ π (startEvent j))
    (hpair : ∀ j ∈ df, π (endEvent j) = π (startEvent j)) :
    es.foldl (stepAmt π) 0 = 0 := by
  have htot : sweepSum π es = 0 :=
    (sweepSum_perm π hperm).trans (sweepSum_makeEvents π df hpair)
  have hpre : ∀ p s, es = p ++ s → 0 ≤ (0 : ℚ) + sweepSum π p := by
    intro p s hps
    have hsuf : sweepSum π s ≤ 0 :=
      suffix_sweepSum_nonpos π df es hperm hsort hval hnn hpair s ⟨p, hps.symm⟩
    have hadd : sweepSum π p + sweepSum π s = 0 := by
      rw [← sweepSum_append, ← hps, htot]
    linarith
  rw [foldl_stepAmt_eq π es 0 hpre, htot]
  ring

theorem sweep_getLast (es : List Event) :
    ∀ c m : ℚ, ∀ p : TimelinePoint, (sweep c m es).getLast? = some p →
      p.cpus_allocated = es.foldl (stepAmt cpusOf) c ∧
      p.memory_allocated_mb = es.foldl (stepAmt memOf) m := by
  induction es with
  | nil => intro c m p h; simp [sweep] at h
  | cons e rest ih =>
    intro c m p h
    rw [sweep_cons] at h
    cases rest with
    | nil =>
      simp [sweep] at h
      simp [← h, List.foldl_cons]
    | cons e₂ r₂ =>
      rw [sweep_cons, List.getLast?_cons_cons, ← sweep_cons] at h
      have := ih _ _ _ h
      simpa [List.foldl_cons] using this

theorem sortEvents_perm (E : List Event) : List.Perm (sortEvents E) E :=
  List.perm_insertionSort tsLe E

theorem sortEvents_sorted (E : List Event) : List.Pairwise tsLe (sortEvents E) :=
  List.sorted_insertionSort tsLe E

theorem sortEvents_strict_of_nodup {E : List Event}
    (hnodup : (E.map fun e => e.timestamp).Nodup) :
    List.Pairwise tsLt (sortEvents E) := by
  have h₁ : List.Pairwise tsLe (sortEvents E) := sortEvents_sorted E
  have h₂ : ((sortEvents E).map fun e => e.timestamp).Nodup :=
    (List.Perm.nodup_iff ((sortEvents_perm E).map _)).mpr hnodup
  have h₃ : List.Pairwise (fun a b : Event => a.timestamp ≠ b.timestamp)
      (sortEvents E) := List.pairwise_map.mp h₂
  exact (h₁.and h₃).imp fun h => lt_of_le_of_ne h.1 h.2

theorem sortEvents_eq_of_perm_nodup {E₁ E₂ : List Event}
    (hperm : List.Perm E₁ E₂)
    (hnodup : (E₁.map fun e => e.timestamp).Nodup) :
    sortEvents E₁ = sortEvents E₂ := by
  have hp : List.Perm (sortEvents E₁) (sortEvents E₂) :=
    (sortEvents_perm E₁).trans (hperm.trans (sortEvents_perm E₂).symm)
  have hnodup₂ : (E₂.map fun e => e.timestamp).Nodup :=
    (List.Perm.nodup_iff (hperm.map _)).mp hnodup
  exact List.eq_of_perm_of_sorted hp (sortEvents_strict_of_nodup hnodup)
    (sortEvents_strict_of_nodup hnodup₂)

/-- Claim C9: the claim says the empty batch yields an empty series, and the
spec intends `empty input → empty output`; the code instead builds
`pd.DataFrame([])` — a frame with no columns at all — so
`events_df.sort_values('timestamp')` at line 124 raises
`KeyError: 'timestamp'` for the empty batch. -/
theorem empty_input_raises_keyerror :
    calculate_utilization_timeseries [] = .error (.keyError "timestamp") := rfl

/-- Claim C10: every sample emitted by the event-sweep time series has
`cpus_allocated >= 0` and `memory_allocated_mb >= 0`, because both running
totals are clamped at zero after every event (lines 146-147); no validity
hypothesis on the batch is needed, so negative excursions are silently
absorbed. -/
theorem samples_nonneg_clamped (df : List Job) (ts : List TimelinePoint)
    (hok : calculate_utilization_timeseries df = .ok ts) :
    ∀ p ∈ ts, 0 ≤ p.cpus_allocated ∧ 0 ≤ p.memory_allocated_mb := by
  unfold calculate_utilization_timeseries at hok
  by_cases hemp : (makeEvents df).isEmpty
  · simp [hemp] at hok
  · simp [hemp] at hok
    subst hok
    exact fun p hp => sweep_mem_nonneg _ _ _ p hp

/-- Claim C4: for a batch of valid jobs (`end > start`, non-negative
amounts), the last sample of the sweep — emitted after all start and end
events are processed — has both running totals equal to zero.  The code's
samples carry `cpus_allocated` and `memory_allocated_mb` as active amounts
and no separate count field; the proof is generic over the amount projection
and in particular covers the all-amounts-one instance, which is the active
count. -/
theorem conservation_last_sample_zero (df : List Job) (ts : List TimelinePoint)
    (p : TimelinePoint)
    (hval : ∀ j ∈ df, j.start_time < j.end_time ∧ 0 ≤ j.cpus ∧ 0 ≤ j.mem_req)
    (hok : calculate_utilization_timeseries df = .ok ts)
    (hlast : ts.getLast? = some p) :
    p.cpus_allocated = 0 ∧ p.memory_allocated_mb = 0 := by
  unfold calculate_utilization_timeseries at hok
  by_cases hemp : (makeEvents df).isEmpty
  · simp [hemp] at hok
  · simp [hemp] at hok
    subst hok
    have hcm := sweep_getLast (sortEvents (makeEvents df)) 0 0 p hlast
    refine ⟨?_, ?_⟩
    · rw [hcm.1]
      exact foldl_stepAmt_sorted_zero cpusOf df _ (sortEvents_perm _)
        (sortEvents_sorted _) (fun j hj => (hval j hj).1)
        (fun j hj => (hval j hj).2.1) (fun j _ => rfl)
    · rw [hcm.2]
      exact foldl_stepAmt_sorted_zero memOf df _ (sortEvents_perm _)
        (sortEvents_sorted _) (fun j hj => (hval j hj).1)
        (fun j hj => (hval j hj).2.2) (fun j _ => rfl)

/-- Claim C4 witness: the single job [0,10) with 5 CPUs ends with both
totals at zero. -/
theorem conservation_last_sample_zero_witness :
    (⟨10, .endEv, 0, 0⟩ : TimelinePoint).cpus_allocated = 0 ∧
    (⟨10, .endEv, 0, 0⟩ : TimelinePoint).memory_allocated_mb = 0 :=
  conservation_last_sample_zero [⟨0, 10, 5, 0⟩]
    [⟨0, .startEv, 5, 0⟩, ⟨10, .endEv, 0, 0⟩] ⟨10, .endEv, 0, 0⟩
    (by intro j hj; simp at hj; subst hj
        exact ⟨by norm_num, by norm_num, by norm_num⟩)
    (by norm_num [calculate_utilization_timeseries, makeEvents, startEvent,
      endEvent, sortEvents, tsLe, sweep])
    rfl

/-- Claim C10 witness: for the batch with one job of negative amount -3, the
first emitted sample has totals clamped at zero and the theorem applies with
no hypothesis on amounts. -/
theorem samples_nonneg_clamped_witness :
    0 ≤ (⟨0, .startEv, 0, 0⟩ : TimelinePoint).cpus_allocated ∧
    0 ≤ (⟨0, .startEv, 0, 0⟩ : TimelinePoint).memory_allocated_mb :=
  samples_nonneg_clamped [⟨0, 10, -3, 0⟩]
    [⟨0, .startEv, 0, 0⟩, ⟨10, .endEv, 3, 0⟩]
    (by norm_num [calculate_utilization_timeseries, makeEvents, startEvent,
      endEvent, sortEvents, tsLe, sweep])
    ⟨0, .startEv, 0, 0⟩ (List.mem_cons_self _ _)

/-- Claim C3 (amended): the sweep emits exactly one sample per event — two
per interval, one for its start and one for its end, rather than one per
distinct event timestamp — and the sample timestamps are non-decreasing. -/
theorem one_sample_per_event_sorted (df : List Job) (ts : List TimelinePoint)
    (hok : calculate_utilization_timeseries df = .ok ts) :
    ts.length = 2 * df.length ∧
      List.Pairwise (fun a b : Int => a ≤ b) (ts.map fun p => p.timestamp) := by
  unfold calculate_utilization_timeseries at hok
  by_cases hemp : (makeEvents df).isEmpty
  · simp [hemp] at hok
  · simp [hemp] at hok
    subst hok
    constructor
    · rw [sweep_length, (sortEvents_perm _).length_eq, makeEvents_length]
    · rw [sweep_map_timestamp]
      exact List.pairwise_map.mpr (sortEvents_sorted _)

/-- Claim C3 witness: one valid job produces two samples with sorted
timestamps. -/
theorem one_sample_per_event_sorted_witness :
    ([(⟨0, .startEv, 5, 0⟩ : TimelinePoint), ⟨10, .endEv, 0, 0⟩]).length =
        2 * ([(⟨0, 10, 5, 0⟩ : Job)]).length ∧
      List.Pairwise (fun a b : Int => a ≤ b)
        (([(⟨0, .startEv, 5, 0⟩ : TimelinePoint), ⟨10, .endEv, 0, 0⟩]).map
          fun p => p.timestamp) :=
  one_sample_per_event_sorted [⟨0, 10, 5, 0⟩]
    [⟨0, .startEv, 5, 0⟩, ⟨10, .endEv, 0, 0⟩]
    (by norm_num [calculate_utilization_timeseries, makeEvents, startEvent,
      endEvent, sortEvents, tsLe, sweep])

/-- Claim C3 counterexample: on the valid batch A=[0,10) amount 5,
B=[10,20) amount 3 (three distinct event timestamps 0, 10, 20) the sweep
emits four samples, two of which share timestamp 10 — not one sample per
distinct event timestamp. -/
theorem two_samples_share_timestamp :
    calculate_utilization_timeseries [⟨0, 10, 5, 0⟩, ⟨10, 20, 3, 0⟩] =
      .ok [⟨0, .startEv, 5, 0⟩, ⟨10, .endEv, 0, 0⟩, ⟨10, .startEv, 3, 0⟩,
        ⟨20, .endEv, 0, 0⟩] ∧
    ([(⟨0, .startEv, 5, 0⟩ : TimelinePoint), ⟨10, .endEv, 0, 0⟩,
        ⟨10, .startEv, 3, 0⟩, ⟨20, .endEv, 0, 0⟩].map fun p => p.timestamp) =
      [0, 10, 10, 20] := by
  constructor
  · norm_num [calculate_utilization_timeseries, makeEvents, startEvent,
      endEvent, sortEvents, tsLe, sweep]
  · rfl

/-- Claim C1 (amended): the code applies no end-before-start tie-break;
events sharing a timestamp are processed in input order and one sample is
emitted per event.  For the batch given as [A, B] with A=[0,10) amount 5 and
B=[10,20) amount 3, the end of A precedes the start of B, the two samples at
t=10 report 0 and then 3, and no sample reports 8. -/
theorem tie_break_follows_input_order :
    calculate_utilization_timeseries [⟨0, 10, 5, 0⟩, ⟨10, 20, 3, 0⟩] =
      .ok [⟨0, .startEv, 5, 0⟩, ⟨10, .endEv, 0, 0⟩, ⟨10, .startEv, 3, 0⟩,
        ⟨20, .endEv, 0, 0⟩] := by
  norm_num [calculate_utilization_timeseries, makeEvents, startEvent,
    endEvent, sortEvents, tsLe, sweep]

/-- Claim C1 counterexample: with the same two intervals given in the order
[B, A], the start of B at t=10 is processed before the end of A, and the
sweep emits a sample at t=10 reporting active amount 8 — the removal is not
applied before the addition at a shared timestamp. -/
theorem tie_break_not_end_before_start :
    calculate_utilization_timeseries [⟨10, 20, 3, 0⟩, ⟨0, 10, 5, 0⟩] =
      .ok [⟨0, .startEv, 5, 0⟩, ⟨10, .startEv, 8, 0⟩, ⟨10, .endEv, 3, 0⟩,
        ⟨20, .endEv, 0, 0⟩] := by
  norm_num [calculate_utilization_timeseries, makeEvents, startEvent,
    endEvent, sortEvents, tsLe, sweep]

/-- Claim C8 (amended): the sweep is a pure function of its input list, so
repeated runs on the same batch agree trivially; and a reordered copy of the
batch yields the identical output series provided all event timestamps are
distinct.  With tied timestamps the tie order follows input order and the
output can change (see the counterexample). -/
theorem calculate_perm_invariant_distinct_ts (df₁ df₂ : List Job)
    (hperm : List.Perm df₁ df₂)
    (hnodup : ((makeEvents df₁).map fun e => e.timestamp).Nodup) :
    calculate_utilization_timeseries df₁ = calculate_utilization_timeseries df₂ := by
  have hE : List.Perm (makeEvents df₁) (makeEvents df₂) :=
    List.Perm.flatMap_right _ hperm
  have hsorteq : sortEvents (makeEvents df₁) = sortEvents (makeEvents df₂) :=
    sortEvents_eq_of_perm_nodup hE hnodup
  unfold calculate_utilization_timeseries
  by_cases hemp : (makeEvents df₁).isEmpty
  · have hemp₂ : (makeEvents df₂).isEmpty = true := by
      rw [List.isEmpty_iff] at hemp ⊢
      have h₁ := hE
      rw [hemp] at h₁
      exact h₁.symm.eq_nil
    simp [hemp, hemp₂]
  · have hemp₂ : ¬(makeEvents df₂).isEmpty = true := by
      rw [List.isEmpty_iff] at hemp ⊢
      intro h
      have h₁ := hE
      rw [h] at h₁
      exact hemp h₁.eq_nil
    simp [hemp, hemp₂, hsorteq]

/-- Claim C8 witness: two jobs with the four distinct event timestamps
0, 10, 20, 30, in either order, produce the same series. -/
theorem calculate_perm_invariant_distinct_ts_witness :
    calculate_utilization_timeseries [⟨0, 10, 5, 0⟩, ⟨20, 30, 3, 0⟩] =
      calculate_utilization_timeseries [⟨20, 30, 3, 0⟩, ⟨0, 10, 5, 0⟩] :=
  calculate_perm_invariant_distinct_ts _ _ (List.Perm.swap _ _ _) (by decide)

/-- Claim C8 counterexample: [B, A] is a reordered copy of [A, B]
(A=[0,10) amount 5, B=[10,20) amount 3), yet the two runs produce different
series: the samples at the shared timestamp 10 report 8 then 3 in one order
and 0 then 3 in the other. -/
theorem reorder_changes_output :
    List.Perm [(⟨10, 20, 3, 0⟩ : Job), ⟨0, 10, 5, 0⟩]
      [(⟨0, 10, 5, 0⟩ : Job), ⟨10, 20, 3, 0⟩] ∧
    calculate_utilization_timeseries [⟨10, 20, 3, 0⟩, ⟨0, 10, 5, 0⟩] ≠
      calculate_utilization_timeseries [⟨0, 10, 5, 0⟩, ⟨10, 20, 3, 0⟩] := by
  refine ⟨List.Perm.swap _ _ _, ?_⟩
  intro hEq
  have h₁ : calculate_utilization_timeseries [(⟨10, 20, 3, 0⟩ : Job), ⟨0, 10, 5, 0⟩] =
      .ok [⟨0, .startEv, 5, 0⟩, ⟨10, .startEv, 8, 0⟩, ⟨10, .endEv, 3, 0⟩,
        ⟨20, .endEv, 0, 0⟩] := by
    norm_num [calculate_utilization_timeseries, makeEvents, startEvent,
      endEvent, sortEvents, tsLe, sweep]
  have h₂ : calculate_utilization_timeseries [(⟨0, 10, 5, 0⟩ : Job), ⟨10, 20, 3, 0⟩] =
      .ok [⟨0, .startEv, 5, 0⟩, ⟨10, .endEv, 0, 0⟩, ⟨10, .startEv, 3, 0⟩,
        ⟨20, .endEv, 0, 0⟩] := by
    norm_num [calculate_utilization_timeseries, makeEvents, startEvent,
      endEvent, sortEvents, tsLe, sweep]
  rw [h₁, h₂] at hEq
  norm_num at hEq

/-- Claim C2 (amended): a malformed row — a missing timestamp, or
`end_time <= start_time` — is silently dropped by `load_job_data`: appending
such a row to any batch leaves the loaded result unchanged, and no error is
raised (the function has no error path at all).  Negative amounts are not
checked anywhere; see the counterexample. -/
theorem malformed_rows_silently_dropped (rows : List RawJob) (r : RawJob)
    (hbad : ∀ s, r.start_time = some s → ∀ e, r.end_time = some e → e ≤ s) :
    load_job_data (rows ++ [r]) = load_job_data rows := by
  unfold load_job_data
  rw [List.filterMap_append]
  have h : validateRow r = none := by
    unfold validateRow
    cases hs : r.start_time with
    | none => rfl
    | some s =>
      cases he : r.end_time with
      | none => rfl
      | some e => exact if_neg (not_lt.mpr (hbad s hs e he))
  simp [List.filterMap_cons, h]

/-- Claim C2 witness: appending a zero-length row to a one-row batch leaves
the loaded jobs unchanged, with no error. -/
theorem malformed_rows_silently_dropped_witness :
    load_job_data ([⟨some 0, some 10, some 2, some 3⟩] ++
        [⟨some 5, some 5, some 1, some 1⟩]) =
      load_job_data [⟨some 0, some 10, some 2, some 3⟩] :=
  malformed_rows_silently_dropped _ _ (by
    intro s hs e he
    injection hs with h₁
    injection he with h₂
    omega)

/-- Claim C2 counterexample: a batch holding a zero-length interval and an
interval with negative amount loads without any error: the zero-length row
is silently dropped (not reported) and the negative amount passes through
unchecked — no `InvalidIntervalError` exists anywhere in the code. -/
theorem malformed_row_no_error :
    load_job_data [⟨some 0, some 0, some 5, some 4⟩,
        ⟨some 0, some 10, some (-3), some 0⟩] =
      [⟨0, 10, -3, 0⟩] := by
  norm_num [load_job_data, validateRow, List.filterMap_cons]

end TrueUtilization

/-! ## Lemmas and claims about the fixed-tick sampler -/

namespace ConcurrentLoad

/-- Closed form of the sampling loop: for a positive interval and a
non-inverted range, the tick list is exactly `range_start + k·d` for
`k = 0 .. floor((range_end − range_start)/d)`. -/
theorem tickTimes_closed_form (d e : Int) (hd : 0 < d) :
    ∀ s : Int, s ≤ e →
      tickTimes d e s =
        (List.range ((e - s).toNat / d.toNat + 1)).map fun k : Nat => s + (k : Int) * d := by
  have hgen : ∀ n : Nat, ∀ s : Int, (e + 1 - s).toNat = n → s ≤ e →
      tickTimes d e s =
        (List.range ((e - s).toNat / d.toNat + 1)).map fun k : Nat => s + (k : Int) * d := by
    intro n
    induction n using Nat.strong_induction_on with
    | _ n ih =>
      intro s hn hse
      rw [tickTimes, dif_pos ⟨hd, hse⟩]
      by_cases h₂ : s + d ≤ e
      · rw [ih ((e + 1 - (s + d)).toNat) (by omega) _ rfl h₂]
        have h₄ : (e - s).toNat / d.toNat + 1 = ((e - (s + d)).toNat / d.toNat + 1) + 1 := by
          have hdn : 0 < d.toNat := by omega
          have h₃ : d.toNat ≤ (e - s).toNat := by omega
          have h₆ := Nat.div_eq_sub_div hdn h₃
          have h₅ : (e - s).toNat - d.toNat = (e - (s + d)).toNat := by omega
          rw [h₅] at h₆
          omega
        rw [h₄]
        generalize (e - (s + d)).toNat / d.toNat = N
        rw [List.range_succ_eq_map (N + 1), List.map_cons, List.map_map]
        congr 1
        · simp
        · refine List.map_congr_left fun k _ => ?_
          simp only [Function.comp_apply]
          push_cast
          ring
      · rw [tickTimes, dif_neg (by omega)]
        have hN : (e - s).toNat / d.toNat = 0 := Nat.div_eq_of_lt (by omega)
        rw [hN]
        simp [show List.range 1 = [0] from rfl]
  intro s hse
  exact hgen _ s rfl hse

/-- Claim C6 (amended): for a valid call (positive tick interval,
range_start <= range_end) the loop emits exactly one sample per tick
`t = range_start + k * tick_interval` with `t <= range_end`; each sample is
`sampleAt` — the amount summed over intervals with `start <= t < end` — and
the sample count is `floor((range_end - range_start) / tick_interval) + 1`,
not `ceil(...) + 1`. -/
theorem compute_fixed_tick_closed_form (df : List CJob) (d s e : Int)
    (hd : 0 < d) (hse : s ≤ e) :
    compute_fixed_tick df d s e =
      (List.range ((e - s).toNat / d.toNat + 1)).map
        fun k : Nat => sampleAt df (s + (k : Int) * d) := by
  unfold compute_fixed_tick
  rw [tickTimes_closed_form d e hd s hse, List.map_map]
  rfl

/-- Claim C6 witness: ticks 4 over the range [0, 10] give the three samples
at 0, 4, 8. -/
theorem compute_fixed_tick_closed_form_witness :
    compute_fixed_tick [] 4 0 10 =
      (List.range (((10 : Int) - 0).toNat / (4 : Int).toNat + 1)).map
        fun k : Nat => sampleAt [] (0 + (k : Int) * 4) :=
  compute_fixed_tick_closed_form [] 4 0 10 (by norm_num) (by norm_num)

/-- Claim C6 counterexample: for range [0, 10] with tick 4 the loop emits
3 samples (floor(10/4) + 1), whereas the claimed formula gives
ceil(10/4) + 1 = 4. -/
theorem tick_count_not_ceil :
    (compute_fixed_tick [] 4 0 10).length = 3 ∧
    (⌈((10 : ℚ) - 0) / 4⌉ + 1 : ℤ) = 4 := by
  constructor
  · have h : compute_fixed_tick [] 4 0 10 = [⟨0, 0, 0⟩, ⟨4, 0, 0⟩, ⟨8, 0, 0⟩] := by
      rw [compute_fixed_tick, tickTimes]
      norm_num
      rw [tickTimes]
      norm_num
      rw [tickTimes]
      norm_num
      rw [tickTimes]
      norm_num [sampleAt, running_jobs]
    rw [h]
    rfl
  · norm_num
    have h : (⌈(5 : ℚ) / 2⌉ : ℤ) = 3 := by
      rw [Int.ceil_eq_iff]
      constructor <;> norm_num
    omega

/-- Claim C7 (amended): when `range_end < range_start` the while condition
is false on entry, so the loop body never runs: the computation returns an
empty series, terminates, and raises no error — the claimed
invalid-argument error does not exist in the code. -/
theorem inverted_range_returns_empty (df : List CJob) (d s e : Int)
    (h : e < s) : compute_fixed_tick df d s e = [] := by
  unfold compute_fixed_tick
  rw [tickTimes, dif_neg (by omega)]
  rfl

/-- Claim C7 witness: range_start 7, range_end 5 gives the empty series. -/
theorem inverted_range_returns_empty_witness :
    compute_fixed_tick [] 2 7 5 = [] :=
  inverted_range_returns_empty [] 2 7 5 (by norm_num)

/-- Claim C7 counterexample: at tick 1 with range_start 5 and range_end 3
the computation returns the empty list as a plain value and raises no
invalid-argument error — the script merely skips the loop, and the embedded
function has no error channel at all. -/
theorem inverted_range_no_error :
    compute_fixed_tick [] 1 5 3 = [] := by
  rw [compute_fixed_tick, tickTimes]
  norm_num

/-- Claim C5 (amended): the peak-to-average ratio equals max/mean whenever
the mean is nonzero; when the mean is exactly zero the code raises nothing —
the float division returns a sentinel instead: +inf for a positive max and
NaN when every sample is zero (and NaN for the empty series, where max and
mean are both NaN). -/
theorem peak_to_avg_characterization (l : List ℚ) (hne : l ≠ []) :
    (l.sum ≠ 0 →
      peak_to_avg l = .val (seriesMaxVal l / (l.sum / (l.length : ℚ)))) ∧
    (l.sum = 0 → 0 < seriesMaxVal l → peak_to_avg l = .posInf) ∧
    (l.sum = 0 → seriesMaxVal l = 0 → peak_to_avg l = .nan) := by
  obtain ⟨x, xs, rfl⟩ := List.exists_cons_of_ne_nil hne
  have hlen : ((x :: xs).length : ℚ) ≠ 0 :=
    ne_of_gt (Nat.cast_pos.mpr (List.length_pos.mpr hne))
  have hmax : seriesMax (x :: xs) = .val (seriesMaxVal (x :: xs)) := rfl
  have hmean : seriesMean (x :: xs) =
      .val ((x :: xs).sum / ((x :: xs).length : ℚ)) := rfl
  refine ⟨?_, ?_, ?_⟩
  · intro hsum
    have hy : (x :: xs).sum / ((x :: xs).length : ℚ) ≠ 0 := div_ne_zero hsum hlen
    rw [peak_to_avg, hmax, hmean]
    show pyDivVals (seriesMaxVal (x :: xs))
      ((x :: xs).sum / ((x :: xs).length : ℚ)) = _
    rw [pyDivVals, if_neg hy]
  · intro hsum hpos
    have hy : (x :: xs).sum / ((x :: xs).length : ℚ) = 0 := by
      rw [hsum, zero_div]
    rw [peak_to_avg, hmax, hmean]
    show pyDivVals (seriesMaxVal (x :: xs))
      ((x :: xs).sum / ((x :: xs).length : ℚ)) = _
    rw [pyDivVals, if_pos hy, if_pos hpos]
  · intro hsum hzero
    have hy : (x :: xs).sum / ((x :: xs).length : ℚ) = 0 := by
      rw [hsum, zero_div]
    rw [peak_to_avg, hmax, hmean]
    show pyDivVals (seriesMaxVal (x :: xs))
      ((x :: xs).sum / ((x :: xs).length : ℚ)) = _
    rw [pyDivVals, if_pos hy, if_neg (by rw [hzero]; exact lt_irrefl 0),
      if_neg (by rw [hzero]; exact lt_irrefl 0)]

/-- Claim C5 witness: on the series [4, 2] the ratio is max/mean as a finite
value; the two zero-mean branches hold vacuously. -/
theorem peak_to_avg_characterization_witness :
    (([4, 2] : List ℚ).sum ≠ 0 →
      peak_to_avg [4, 2] =
        .val (seriesMaxVal [4, 2] /
          (([4, 2] : List ℚ).sum / (([4, 2] : List ℚ).length : ℚ)))) ∧
    (([4, 2] : List ℚ).sum = 0 → 0 < seriesMaxVal [4, 2] →
      peak_to_avg [4, 2] = .posInf) ∧
    (([4, 2] : List ℚ).sum = 0 → seriesMaxVal [4, 2] = 0 →
      peak_to_avg [4, 2] = .nan) :=
  peak_to_avg_characterization [4, 2] (List.cons_ne_nil _ _)

/-- Claim C5 counterexample: on the all-zero series [0, 0] the mean is
exactly 0 and the script evaluates 0.0/0.0 = NaN — a sentinel value is
returned and no error is raised; likewise NaN for the empty series. -/
theorem peak_to_avg_nan_on_zero_mean :
    peak_to_avg [0, 0] = .nan ∧ peak_to_avg [] = .nan := by
  constructor
  · norm_num [peak_to_avg, seriesMax, seriesMean, pyDiv, pyDivVals]
  · rfl

end ConcurrentLoad
